import Mathlib

/-!
Verification of the in-memory MongoDB collection emulator in
`src/backend/database.py` (class `MockCollection`, function `init_database`
and the seed data).  Python dictionaries are embedded as association lists
in insertion order, Python values as the inductive `Value`, and each method
of `MockCollection` as a Lean function that mirrors the Python line by line.
-/

set_option autoImplicit false
set_option linter.unusedVariables false

namespace MockDB

/-- Python values that flow through the emulator: `None`, strings, integers,
lists and dictionaries (kept in insertion order, as Python dictionaries are). -/
inductive Value where
  | vnone : Value
  | str : String → Value
  | int : Int → Value
  | list : List Value → Value
  | obj : List (String × Value) → Value

mutual

/-- Structural equality test on values, mirroring Python `==` on the shapes
the emulator actually stores (no cross-type equalities arise there). -/
def Value.beq : Value → Value → Bool
  | .vnone, .vnone => true
  | .str a, .str b => a == b
  | .int a, .int b => a == b
  | .list a, .list b => Value.beqList a b
  | .obj a, .obj b => Value.beqObj a b
  | _, _ => false

/-- Pointwise equality test on lists of values. -/
def Value.beqList : List Value → List Value → Bool
  | [], [] => true
  | x :: xs, y :: ys => Value.beq x y && Value.beqList xs ys
  | _, _ => false

/-- Pointwise equality test on key-value lists. -/
def Value.beqObj : List (String × Value) → List (String × Value) → Bool
  | [], [] => true
  | (k, x) :: xs, (l, y) :: ys => k == l && Value.beq x y && Value.beqObj xs ys
  | _, _ => false

end

/-- A Python dictionary with string keys, in insertion order
(a document, a filter, an update instruction, a pipeline stage). -/
abbrev Doc := List (String × Value)

/-- Lookup `d.get(k)` returning `none` when the key is absent: first binding wins
(bindings built by `dset` are unique, as in a Python dictionary). -/
def dget : Doc → String → Option Value
  | [], _ => none
  | (k', v) :: rest, k => if k' = k then some v else dget rest k

/-- Python `d.get(k)`: the stored value, or `None` when `k` is absent. -/
def pyGet (d : Doc) (k : String) : Value :=
  (dget d k).getD .vnone

/-- Python `d[k] = v`: replace the binding in place when the key exists,
append it otherwise (insertion order preserved, as for a Python dictionary). -/
def dset : Doc → String → Value → Doc
  | [], k, v => [(k, v)]
  | (k', v') :: rest, k, v =>
      if k' = k then (k', v) :: rest else (k', v') :: dset rest k v

/-- The backing store of one `MockCollection`: the ordered mapping
`self.data` from document identifier to document body. -/
abbrev Data := List (Value × Doc)

/-- Key lookup in `self.data` (identifiers are arbitrary values). -/
def dataGet : Data → Value → Option Doc
  | [], _ => none
  | (k', v) :: rest, k => if Value.beq k' k then some v else dataGet rest k

/-- Assignment `self.data[k] = v` on the backing store. -/
def dataSet : Data → Value → Doc → Data
  | [], k, v => [(k, v)]
  | (k', v') :: rest, k, v =>
      if Value.beq k' k then (k', v) :: rest else (k', v') :: dataSet rest k v

/-! ## The MockCollection operations -/

/-- Result object of `insert_one`. -/
structure InsertResult where
  inserted_id : Value

/-- Result object of `update_one`. -/
structure UpdateResult where
  modified_count : Nat

/-- Method `count_documents(self, filter_dict)`: `return len(self.data)` —
the filter argument is not consulted. -/
def count_documents (data : Data) (filter_dict : Doc) : Nat :=
  data.length

/-- Method `insert_one(self, doc)`: `doc_id = doc.get('_id', len(self.data))`,
`self.data[doc_id] = doc` (the body is stored as given, nothing stripped),
returning the new store and the insert result. -/
def insert_one (data : Data) (doc : Doc) : Data × InsertResult :=
  let doc_id := (dget doc "_id").getD (.int data.length)
  (dataSet data doc_id doc, ⟨doc_id⟩)

/-- The dictionary display with spread `{'_id': doc_id, **doc}` used by
`find` and `find_one`: start from the single binding and write every
binding of `doc` over it in order. -/
def withId (doc_id : Value) (doc : Doc) : Doc :=
  doc.foldl (fun acc kv => dset acc kv.1 kv.2) [("_id", doc_id)]

/-- The lookup `doc.get("schedule_details", ...).get(field, dflt)` in `find`.
When the stored `schedule_details` value is not a dictionary the Python
attribute lookup would fail; no claim probes that region and it is
modelled as the default. -/
def getSched (doc : Doc) (field : String) (dflt : Value) : Value :=
  match dget doc "schedule_details" with
  | some (.obj sd) => (dget sd field).getD dflt
  | some _ => dflt
  | none => dflt

/-- Python `x in c` for the containers `find` consults.  Membership in a
non-list container behaves differently in Python (substring test on a
string, an error on a number); no claim probes that region. -/
def pyIn (x : Value) (c : Value) : Bool :=
  match c with
  | .list vs => vs.any (fun y => Value.beq y x)
  | _ => false

/-- Python `a < b` on the values compared by the time filters.  A
comparison across types raises in Python; no claim probes that region. -/
def pyLt : Value → Value → Bool
  | .str a, .str b => decide (a < b)
  | .int a, .int b => decide (a < b)
  | _, _ => false

/-- Python `a > b`, as used by the `end_time` filter. -/
def pyGt : Value → Value → Bool
  | .str a, .str b => decide (b < a)
  | .int a, .int b => decide (b < a)
  | _, _ => false

/-- One iteration of the filter loop in `find`: the check applied to the
filter entry `key`/`value` against the current document (`doc_with_id`
carries the attached identifier and serves the exact-equality branch, the
operator branches read the raw body, exactly as the Python does).  An
operator branch whose operator key is absent from `value` leaves `match`
untouched, so the entry imposes no constraint.  A `value` that is not a
dictionary cannot contain the operator key in the Python sense modelled
here (the remaining Python membership shapes either fail the test or
raise; no claim probes them). -/
def matchEntry (doc_with_id doc : Doc) (key : String) (value : Value) : Bool :=
  if key = "schedule_details.days" then
    match value with
    | .obj m =>
        match dget m "$in" with
        | some (.list days) =>
            days.any (fun day => pyIn day (getSched doc "days" (.list [])))
        | some _ => false
        | none => true
    | _ => true
  else if key = "schedule_details.start_time" then
    match value with
    | .obj m =>
        match dget m "$gte" with
        | some bound => !pyLt (getSched doc "start_time" (.str "")) bound
        | none => true
    | _ => true
  else if key = "schedule_details.end_time" then
    match value with
    | .obj m =>
        match dget m "$lte" with
        | some bound => !pyGt (getSched doc "end_time" (.str "")) bound
        | none => true
    | _ => true
  else
    Value.beq (pyGet doc_with_id key) value

/-- Whether a stored document passes the whole filter loop of `find`
(the Python loop `break`s at the first failing entry; the conjunction
over all entries is the same value). -/
def matchesFilter (doc_id : Value) (doc : Doc) (filter_dict : Doc) : Bool :=
  let doc_with_id := withId doc_id doc
  filter_dict.all (fun kv => matchEntry doc_with_id doc kv.1 kv.2)

/-- The no-filter branch of `find`: every document with `_id` attached,
in insertion order. -/
def findAll (data : Data) : List Doc :=
  data.map (fun p => withId p.1 p.2)

/-- The filtering loop of `find`: keep, in order, the attached form of
every document that passes the filter. -/
def findFiltered : Data → Doc → List Doc
  | [], _ => []
  | (doc_id, doc) :: rest, f =>
      if matchesFilter doc_id doc f then
        withId doc_id doc :: findFiltered rest f
      else
        findFiltered rest f

/-- Method `find(self, filter_dict=None)`. -/
def find (data : Data) (filter_dict : Option Doc) : List Doc :=
  match filter_dict with
  | none => findAll data
  | some f => findFiltered data f

/-- The exact-equality test `all(doc_with_id.get(k) == v for k, v in
filter_dict.items())` of `find_one`, also used (on the raw body) by
`update_one`. -/
def eqMatch (d : Doc) (filter_dict : Doc) : Bool :=
  filter_dict.all (fun kv => Value.beq (pyGet d kv.1) kv.2)

/-- Method `find_one(self, filter_dict)`: first document, in insertion order,
whose attached form passes the exact-equality test; `None` otherwise. -/
def find_one : Data → Doc → Option Doc
  | [], _ => none
  | (doc_id, doc) :: rest, f =>
      if eqMatch (withId doc_id doc) f then some (withId doc_id doc)
      else find_one rest f

/-- The `$push` branch body of `update_one` for one `field`/`value` pair:
create the field as an empty list when absent, then append.  Appending to
a stored non-list raises in Python; no claim probes that region. -/
def pushField (doc : Doc) (field : String) (v : Value) : Doc :=
  let doc :=
    match dget doc field with
    | none => dset doc field (.list [])
    | some _ => doc
  match dget doc field with
  | some (.list vs) => dset doc field (.list (vs ++ [v]))
  | _ => doc

/-- The `$pull` branch body of `update_one` for one `field`/`value` pair:
remove every occurrence of `v` when the field holds a list, leave the
document untouched otherwise (the `isinstance(doc[field], list)` guard). -/
def pullField (doc : Doc) (field : String) (v : Value) : Doc :=
  match dget doc field with
  | some (.list vs) => dset doc field (.list (vs.filter (fun x => !Value.beq x v)))
  | _ => doc

/-- The update body of `update_one`: apply the `$push` instructions, then
the `$pull` instructions, to the matched document.  An operator whose
payload is not a dictionary has no `.items()` in Python; no claim probes
that region and it is modelled as a no-op. -/
def applyUpdate (doc : Doc) (update_dict : Doc) : Doc :=
  let doc :=
    match dget update_dict "$push" with
    | some (.obj pushes) => pushes.foldl (fun d fv => pushField d fv.1 fv.2) doc
    | some _ => doc
    | none => doc
  match dget update_dict "$pull" with
  | some (.obj pulls) => pulls.foldl (fun d fv => pullField d fv.1 fv.2) doc
  | some _ => doc
  | none => doc

/-- Method `update_one(self, filter_dict, update_dict)`: mutate the first document
whose raw body passes the exact-equality test and report `modified_count`
1, or leave the store unchanged and report 0. -/
def update_one : Data → Doc → Doc → Data × UpdateResult
  | [], _, _ => ([], ⟨0⟩)
  | (doc_id, doc) :: rest, f, u =>
      if eqMatch doc f then ((doc_id, applyUpdate doc u) :: rest, ⟨1⟩)
      else
        let r := update_one rest f u
        ((doc_id, doc) :: r.1, r.2)

/-- The days of one stored document as read by `aggregate`:
`doc.get("schedule_details", ...).get("days", [])`.  Iterating a stored
non-list value behaves differently in Python; no claim probes that
region and it is modelled as no contribution. -/
def docDays (doc : Doc) : List Value :=
  match getSched doc "days" (.list []) with
  | .list vs => vs
  | _ => []

/-- All days contributed to the `all_days` set, document by document in
insertion order. -/
def collectDays (data : Data) : List Value :=
  data.foldl (fun acc p => acc ++ docDays p.2) []

/-- The element set of `all_days` as a duplicate-free list (Python builds a
set; which duplicate survives and in which order is irrelevant because
`aggregate` sorts the set afterwards). -/
def distinct : List Value → List Value
  | [] => []
  | x :: xs =>
      if (distinct xs).any (fun y => Value.beq y x) then distinct xs
      else x :: distinct xs

/-- Insert a value into a list kept in ascending `pyLt` order. -/
def insertSorted (x : Value) : List Value → List Value
  | [] => [x]
  | y :: ys => if pyLt x y then x :: y :: ys else y :: insertSorted x ys

/-- Python `sorted(...)` over the values the aggregation collects
(insertion sort by `pyLt`; on the all-string inputs the claims are about
this is exactly the lexicographic sort Python performs). -/
def sortVals (l : List Value) : List Value :=
  l.foldr insertSorted []

/-- Method `aggregate(self, pipeline)`: an empty pipeline yields `[]`; a pipeline
with at least two stages whose first stage carries an unwind key and whose
second carries a group key yields one row per distinct collected day, in
sorted order; everything else yields `[]`. -/
def aggregate (data : Data) (pipeline : List Doc) : List Doc :=
  match pipeline with
  | [] => []
  | s0 :: s1 :: _ =>
      if (dget s0 "$unwind").isSome && (dget s1 "$group").isSome then
        (sortVals (distinct (collectDays data))).map (fun day => [("_id", day)])
      else []
  | _ :: [] => []

/-! ## Seed data and `init_database` -/

/-- One `schedule_details` object of the seed data. -/
def schedDetails (days : List String) (start_time end_time : String) : Value :=
  .obj [("days", .list (days.map .str)),
        ("start_time", .str start_time),
        ("end_time", .str end_time)]

/-- One activity body of the seed data. -/
def activityDoc (description schedule : String) (details : Value)
    (max_participants : Int) (participants : List String) : Doc :=
  [("description", .str description),
   ("schedule", .str schedule),
   ("schedule_details", details),
   ("max_participants", .int max_participants),
   ("participants", .list (participants.map .str))]

/-- The module-level `initial_activities` dictionary, in source order. -/
def initial_activities : List (String × Doc) :=
  [("Chess Club",
    activityDoc "Learn strategies and compete in chess tournaments"
      "Mondays and Fridays, 3:15 PM - 4:45 PM"
      (schedDetails ["Monday", "Friday"] "15:15" "16:45") 12
      ["michael@mergington.edu", "daniel@mergington.edu"]),
   ("Programming Class",
    activityDoc "Learn programming fundamentals and build software projects"
      "Tuesdays and Thursdays, 7:00 AM - 8:00 AM"
      (schedDetails ["Tuesday", "Thursday"] "07:00" "08:00") 20
      ["emma@mergington.edu", "sophia@mergington.edu"]),
   ("Morning Fitness",
    activityDoc "Early morning physical training and exercises"
      "Mondays, Wednesdays, Fridays, 6:30 AM - 7:45 AM"
      (schedDetails ["Monday", "Wednesday", "Friday"] "06:30" "07:45") 30
      ["john@mergington.edu", "olivia@mergington.edu"]),
   ("Soccer Team",
    activityDoc "Join the school soccer team and compete in matches"
      "Tuesdays and Thursdays, 3:30 PM - 5:30 PM"
      (schedDetails ["Tuesday", "Thursday"] "15:30" "17:30") 22
      ["liam@mergington.edu", "noah@mergington.edu"]),
   ("Basketball Team",
    activityDoc "Practice and compete in basketball tournaments"
      "Wednesdays and Fridays, 3:15 PM - 5:00 PM"
      (schedDetails ["Wednesday", "Friday"] "15:15" "17:00") 15
      ["ava@mergington.edu", "mia@mergington.edu"]),
   ("Art Club",
    activityDoc "Explore various art techniques and create masterpieces"
      "Thursdays, 3:15 PM - 5:00 PM"
      (schedDetails ["Thursday"] "15:15" "17:00") 15
      ["amelia@mergington.edu", "harper@mergington.edu"]),
   ("Drama Club",
    activityDoc "Act, direct, and produce plays and performances"
      "Mondays and Wednesdays, 3:30 PM - 5:30 PM"
      (schedDetails ["Monday", "Wednesday"] "15:30" "17:30") 20
      ["ella@mergington.edu", "scarlett@mergington.edu"]),
   ("Math Club",
    activityDoc "Solve challenging problems and prepare for math competitions"
      "Tuesdays, 7:15 AM - 8:00 AM"
      (schedDetails ["Tuesday"] "07:15" "08:00") 10
      ["james@mergington.edu", "benjamin@mergington.edu"]),
   ("Debate Team",
    activityDoc "Develop public speaking and argumentation skills"
      "Fridays, 3:30 PM - 5:30 PM"
      (schedDetails ["Friday"] "15:30" "17:30") 12
      ["charlotte@mergington.edu", "amelia@mergington.edu"]),
   ("Weekend Robotics Workshop",
    activityDoc "Build and program robots in our state-of-the-art workshop"
      "Saturdays, 10:00 AM - 2:00 PM"
      (schedDetails ["Saturday"] "10:00" "14:00") 15
      ["ethan@mergington.edu", "oliver@mergington.edu"]),
   ("Science Olympiad",
    activityDoc "Weekend science competition preparation for regional and state events"
      "Saturdays, 1:00 PM - 4:00 PM"
      (schedDetails ["Saturday"] "13:00" "16:00") 18
      ["isabella@mergington.edu", "lucas@mergington.edu"]),
   ("Sunday Chess Tournament",
    activityDoc "Weekly tournament for serious chess players with rankings"
      "Sundays, 2:00 PM - 5:00 PM"
      (schedDetails ["Sunday"] "14:00" "17:00") 16
      ["william@mergington.edu", "jacob@mergington.edu"]),
   ("Manga Maniacs",
    activityDoc "Explore the fantastic stories of the most interesting characters from Japanese Manga (graphic novels)."
      "Tuesdays, 7:00 PM - 8:00 PM"
      (schedDetails ["Tuesday"] "19:00" "20:00") 15
      [])]

/-- The module-level `initial_teachers` list.  The credential of each
record is `hash_password(...)`, an Argon2 hash computed by an external
library; the development is parameterised by that one-way function
`hashPw`. -/
def initial_teachers (hashPw : String → String) : List Doc :=
  [[("username", .str "mrodriguez"),
    ("display_name", .str "Ms. Rodriguez"),
    ("password", .str (hashPw "art123")),
    ("role", .str "teacher")],
   [("username", .str "mchen"),
    ("display_name", .str "Mr. Chen"),
    ("password", .str (hashPw "chess456")),
    ("role", .str "teacher")],
   [("username", .str "principal"),
    ("display_name", .str "Principal Martinez"),
    ("password", .str (hashPw "admin789")),
    ("role", .str "admin")]]

/-- The two module-level stores (`activities_collection.data` and
`teachers_collection.data`). -/
structure DBState where
  activities : Data
  teachers : Data

/-- The seeding loop for activities: insert `{"_id": name, **details}`
(the same dictionary display `withId` models) for every seed activity. -/
def seedActivities (data : Data) : Data :=
  initial_activities.foldl
    (fun d p => (insert_one d (withId (.str p.1) p.2)).1) data

/-- The seeding loop for teachers: insert
`{"_id": teacher["username"], **teacher}` for every seed record (every
seed record carries the key, so the Python subscript cannot fail). -/
def seedTeachers (hashPw : String → String) (data : Data) : Data :=
  (initial_teachers hashPw).foldl
    (fun d t => (insert_one d (withId (pyGet t "username") t)).1) data

/-- Function `init_database()`: seed each collection exactly when its
`count_documents` of the empty filter is 0. -/
def init_database (hashPw : String → String) (s : DBState) : DBState :=
  { activities :=
      if count_documents s.activities [] = 0 then seedActivities s.activities
      else s.activities,
    teachers :=
      if count_documents s.teachers [] = 0 then seedTeachers hashPw s.teachers
      else s.teachers }

/-! ## Proof infrastructure -/

/-- The LAST binding of a key in a key-value list: this is the value a
dictionary display with spread ends up holding when the same key is
written several times. -/
def lastLookup : Doc → String → Option Value
  | [], _ => none
  | (k', v) :: rest, k =>
      match lastLookup rest k with
      | some w => some w
      | none => if k' = k then some v else none

/-- A document whose keys are pairwise distinct — every dictionary the
Python program builds has this shape. -/
def NodupKeys (d : Doc) : Prop := (d.map Prod.fst).Nodup

instance (d : Doc) : Decidable (NodupKeys d) :=
  inferInstanceAs (Decidable ((d.map Prod.fst).Nodup))

/-- Store invariant: every stored body has distinct keys, and when a body
carries an `_id` binding its value coincides with the key the body is
stored under.  `insert_one` establishes this for the entries it writes. -/
def WF (data : Data) : Prop :=
  ∀ p ∈ data, NodupKeys p.2 ∧ ∀ w, dget p.2 "_id" = some w → w = p.1

/-- The first entry of the store whose raw body passes the exact-equality
test — the entry `update_one` mutates. -/
def firstUpd : Data → Doc → Option (Value × Doc)
  | [], _ => none
  | (doc_id, doc) :: rest, f =>
      if eqMatch doc f then some (doc_id, doc) else firstUpd rest f

/-- The string detector for the all-string side condition of the
aggregation claims. -/
def isStr : Value → Bool
  | .str _ => true
  | _ => false

/-- The strict order the insertion sort establishes on its output. -/
def VLt (a b : Value) : Prop := pyLt a b = true

/-- The underlying strings of an all-string list of values. -/
def strsOf (l : List Value) : List String :=
  l.filterMap (fun v => match v with | .str s => some s | _ => none)

/-- The pipeline shapes the implementation actually recognizes: at least
two stages, an unwind key anywhere-valued in the first and a group key in
the second. -/
def codeRecognizedPipeline (p : List Doc) : Prop :=
  ∃ s0 s1 rest, p = s0 :: s1 :: rest ∧
    (dget s0 "$unwind").isSome = true ∧ (dget s1 "$group").isSome = true

/-- The update instruction the application sends to add a participant. -/
def pushUpd (v : Value) : Doc := [("$push", Value.obj [("participants", v)])]

/-- The update instruction the application sends to remove a participant. -/
def pullUpd (v : Value) : Doc := [("$pull", Value.obj [("participants", v)])]

/-! ## Theorems -/

mutual

theorem Value.beq_iff : ∀ a b : Value, Value.beq a b = true ↔ a = b
  | .vnone, b => by cases b <;> simp [Value.beq]
  | .str s, b => by cases b <;> simp [Value.beq]
  | .int n, b => by cases b <;> simp [Value.beq]
  | .list l, b => by
      cases b <;> simp [Value.beq]
      exact Value.beqList_iff l _
  | .obj o, b => by
      cases b <;> simp [Value.beq]
      exact Value.beqObj_iff o _

theorem Value.beqList_iff : ∀ l m : List Value, Value.beqList l m = true ↔ l = m
  | [], [] => by simp [Value.beqList]
  | [], _ :: _ => by simp [Value.beqList]
  | _ :: _, [] => by simp [Value.beqList]
  | x :: xs, y :: ys => by
      simp [Value.beqList, Value.beq_iff x y, Value.beqList_iff xs ys]

theorem Value.beqObj_iff :
    ∀ l m : List (String × Value), Value.beqObj l m = true ↔ l = m
  | [], [] => by simp [Value.beqObj]
  | [], _ :: _ => by simp [Value.beqObj]
  | _ :: _, [] => by simp [Value.beqObj]
  | (k, x) :: xs, (l, y) :: ys => by
      simp [Value.beqObj, Value.beq_iff x y, Value.beqObj_iff xs ys,
        and_assoc]

end

theorem Value.beq_refl (a : Value) : Value.beq a a = true :=
  (Value.beq_iff a a).mpr rfl

theorem Value.beq_eq_false {a b : Value} (h : a ≠ b) : Value.beq a b = false := by
  cases hb : Value.beq a b
  · rfl
  · exact absurd ((Value.beq_iff a b).mp hb) h

@[simp] theorem dget_nil (k : String) : dget [] k = none := rfl

theorem dget_dset (d : Doc) (k : String) (v : Value) (k' : String) :
    dget (dset d k v) k' = if k = k' then some v else dget d k' := by
  induction d with
  | nil => simp [dset, dget]
  | cons p rest ih =>
      obtain ⟨k₀, v₀⟩ := p
      by_cases h0 : k₀ = k
      · subst h0
        by_cases h1 : k₀ = k'
        · subst h1; simp [dset, dget]
        · simp [dset, dget, h1]
      · by_cases h1 : k₀ = k'
        · subst h1
          simp [dset, dget, h0]
          rw [if_neg (fun h => h0 h.symm)]
        · simp [dset, dget, h0, h1, ih]

theorem dset_ne_nil (d : Doc) (k : String) (v : Value) : dset d k v ≠ [] := by
  cases d with
  | nil => simp [dset]
  | cons p rest =>
      obtain ⟨k₀, v₀⟩ := p
      by_cases h : k₀ = k <;> simp [dset, h]

/-- Writing back the value already stored at a key leaves the dictionary
unchanged (same bindings in the same order). -/
theorem dset_self {d : Doc} {k : String} {v : Value} (h : dget d k = some v) :
    dset d k v = d := by
  induction d with
  | nil => simp [dget] at h
  | cons p rest ih =>
      obtain ⟨k₀, v₀⟩ := p
      by_cases h0 : k₀ = k
      · subst h0
        simp [dget] at h
        simp [dset, h]
      · simp [dget, h0] at h
        simp [dset, h0, ih h]

theorem dataGet_dataSet_self (d : Data) (k : Value) (v : Doc) :
    dataGet (dataSet d k v) k = some v := by
  induction d with
  | nil => simp [dataSet, dataGet, Value.beq_refl]
  | cons p rest ih =>
      obtain ⟨k₀, v₀⟩ := p
      by_cases h0 : k₀ = k
      · subst h0; simp [dataSet, dataGet, Value.beq_refl]
      · simp [dataSet, dataGet, Value.beq_eq_false h0, ih]

theorem mem_dataSet {p : Value × Doc} {d : Data} {k : Value} {v : Doc}
    (h : p ∈ dataSet d k v) : p ∈ d ∨ p = (k, v) := by
  induction d with
  | nil => simp [dataSet] at h; right; simp [h]
  | cons q rest ih =>
      obtain ⟨k₀, v₀⟩ := q
      by_cases h0 : Value.beq k₀ k = true
      · rw [dataSet, if_pos h0] at h
        rcases List.mem_cons.mp h with h | h
        · right; rw [h, (Value.beq_iff _ _).mp h0]
        · left; exact List.mem_cons_of_mem _ h
      · simp [dataSet, h0] at h
        rcases h with h | h
        · left; simp [h]
        · rcases ih h with h' | h'
          · left; simp [h']
          · right; exact h'

theorem dataSet_ne_nil (d : Data) (k : Value) (v : Doc) : dataSet d k v ≠ [] := by
  cases d with
  | nil => simp [dataSet]
  | cons p rest =>
      obtain ⟨k₀, v₀⟩ := p
      by_cases h : Value.beq k₀ k = true <;> simp [dataSet, h]

theorem dget_foldl_dset (l : List (String × Value)) (init : Doc) (k : String) :
    dget (l.foldl (fun acc kv => dset acc kv.1 kv.2) init) k =
      match lastLookup l k with
      | some w => some w
      | none => dget init k := by
  induction l generalizing init with
  | nil => simp [lastLookup]
  | cons kv rest ih =>
      obtain ⟨k₀, v₀⟩ := kv
      rw [List.foldl_cons, ih, lastLookup]
      cases hrest : lastLookup rest k with
      | some w => rfl
      | none =>
          simp only []
          rw [dget_dset]
          by_cases h : k₀ = k <;> simp [h]

theorem dget_eq_none {d : Doc} {k : String}
    (h : k ∉ d.map Prod.fst) : dget d k = none := by
  induction d with
  | nil => rfl
  | cons kv rest ih =>
      obtain ⟨k₀, v₀⟩ := kv
      simp only [List.map_cons, List.mem_cons] at h
      push_neg at h
      rw [dget, if_neg (fun he : k₀ = k => h.1 he.symm), ih h.2]

theorem lastLookup_eq_none {d : Doc} {k : String}
    (h : k ∉ d.map Prod.fst) : lastLookup d k = none := by
  induction d with
  | nil => rfl
  | cons kv rest ih =>
      obtain ⟨k₀, v₀⟩ := kv
      simp only [List.map_cons, List.mem_cons] at h
      push_neg at h
      rw [lastLookup, ih h.2]
      show (if k₀ = k then some v₀ else none) = none
      exact if_neg (fun he => h.1 he.symm)

theorem lastLookup_eq_dget {d : Doc} (h : NodupKeys d) (k : String) :
    lastLookup d k = dget d k := by
  induction d with
  | nil => rfl
  | cons kv rest ih =>
      obtain ⟨k₀, v₀⟩ := kv
      have hn : NodupKeys rest ∧ k₀ ∉ rest.map Prod.fst := by
        unfold NodupKeys at h ⊢
        simp only [List.map_cons, List.nodup_cons] at h
        exact ⟨h.2, h.1⟩
      rw [lastLookup, dget, ih hn.1]
      by_cases h0 : k₀ = k
      · subst h0
        rw [dget_eq_none hn.2]
      · cases hrest : dget rest k <;> simp [h0]

/-- What `find`'s dictionary display holds at each key: the last binding
of the body when the key occurs there, the attached identifier at `_id`
otherwise. -/
theorem dget_withId (doc_id : Value) (doc : Doc) (k : String) :
    dget (withId doc_id doc) k =
      match lastLookup doc k with
      | some w => some w
      | none => if "_id" = k then some doc_id else none := by
  rw [withId, dget_foldl_dset]
  cases lastLookup doc k <;> simp [dget]

/-- On a well-formed stored entry the attached document always reads back
its key at `_id`. -/
theorem dget_withId_id {doc_id : Value} {doc : Doc} (hn : NodupKeys doc)
    (h : ∀ w, dget doc "_id" = some w → w = doc_id) :
    dget (withId doc_id doc) "_id" = some doc_id := by
  rw [dget_withId, lastLookup_eq_dget hn]
  cases hd : dget doc "_id" with
  | some w => simp [h w hd]
  | none => simp

/-- When every stored document passes the filter, the filtering loop of
`find` returns exactly what the no-filter branch returns. -/
theorem findFiltered_all {data : Data} {f : Doc}
    (h : ∀ p ∈ data, matchesFilter p.1 p.2 f = true) :
    findFiltered data f = findAll data := by
  induction data with
  | nil => rfl
  | cons p rest ih =>
      obtain ⟨doc_id, doc⟩ := p
      rw [findFiltered, if_pos (h _ (List.mem_cons_self _ _)), findAll,
        List.map_cons]
      rw [ih (fun q hq => h q (List.mem_cons_of_mem _ hq))]
      rfl

theorem update_one_of_no_match {data : Data} {f u : Doc}
    (h : firstUpd data f = none) : update_one data f u = (data, ⟨0⟩) := by
  induction data with
  | nil => rfl
  | cons p rest ih =>
      obtain ⟨doc_id, doc⟩ := p
      rw [firstUpd] at h
      by_cases hm : eqMatch doc f = true
      · rw [if_pos hm] at h; cases h
      · rw [if_neg hm] at h
        rw [update_one, if_neg hm, ih h]

theorem update_one_of_match {data : Data} {f u : Doc} {doc_id : Value}
    {doc : Doc} (h : firstUpd data f = some (doc_id, doc)) :
    (update_one data f u).2 = ⟨1⟩ ∧
    ∃ pre post, data = pre ++ (doc_id, doc) :: post ∧
      (update_one data f u).1 = pre ++ (doc_id, applyUpdate doc u) :: post := by
  induction data with
  | nil => cases h
  | cons p rest ih =>
      obtain ⟨id₀, doc₀⟩ := p
      rw [firstUpd] at h
      by_cases hm : eqMatch doc₀ f = true
      · rw [if_pos hm] at h
        injection h with h
        injection h with h1 h2
        subst h1; subst h2
        refine ⟨by rw [update_one, if_pos hm], [], rest, by simp, ?_⟩
        rw [update_one, if_pos hm]
        rfl
      · rw [if_neg hm] at h
        obtain ⟨hcount, pre, post, hdata, hres⟩ := ih h
        refine ⟨?_, (id₀, doc₀) :: pre, post, by rw [hdata]; rfl, ?_⟩
        · rw [update_one, if_neg hm]; exact hcount
        · rw [update_one, if_neg hm]
          show (id₀, doc₀) :: (update_one rest f u).1 =
            (id₀, doc₀) :: pre ++ (doc_id, applyUpdate doc u) :: post
          rw [List.cons_append, hres]

/-- Membership in the duplicate-free projection is membership in the
original list. -/
theorem mem_distinct : ∀ (l : List Value) (x : Value),
    x ∈ distinct l ↔ x ∈ l := by
  intro l
  induction l with
  | nil => intro x; rw [distinct]
  | cons y ys ih =>
      intro x
      rw [distinct]
      by_cases hany : (distinct ys).any (fun z => Value.beq z y) = true
      · rw [if_pos hany, ih, List.mem_cons]
        obtain ⟨z, hz, hzy⟩ := List.any_eq_true.mp hany
        have hy : y ∈ ys := (ih y).mp ((Value.beq_iff z y).mp hzy ▸ hz)
        constructor
        · exact Or.inr
        · rintro (rfl | h)
          · exact hy
          · exact h
      · rw [if_neg hany, List.mem_cons, List.mem_cons, ih]

theorem nodup_distinct : ∀ l : List Value, (distinct l).Nodup := by
  intro l
  induction l with
  | nil => rw [distinct]; exact List.nodup_nil
  | cons y ys ih =>
      rw [distinct]
      by_cases hany : (distinct ys).any (fun z => Value.beq z y) = true
      · rw [if_pos hany]; exact ih
      · rw [if_neg hany]
        refine List.nodup_cons.mpr ⟨fun hmem => hany ?_, ih⟩
        exact List.any_eq_true.mpr ⟨y, hmem, Value.beq_refl y⟩

theorem insertSorted_perm (x : Value) (l : List Value) :
    List.Perm (insertSorted x l) (x :: l) := by
  induction l with
  | nil => exact List.Perm.refl _
  | cons y ys ih =>
      rw [insertSorted]
      by_cases h : pyLt x y = true
      · rw [if_pos h]
      · rw [if_neg h]
        exact (ih.cons y).trans (List.Perm.swap x y ys)

theorem sortVals_perm (l : List Value) : List.Perm (sortVals l) l := by
  induction l with
  | nil => exact List.Perm.refl _
  | cons x xs ih =>
      rw [sortVals, List.foldr_cons]
      exact (insertSorted_perm x _).trans (ih.cons x)

theorem vlt_str {a b : String} : VLt (.str a) (.str b) ↔ a < b := by
  unfold VLt pyLt
  exact decide_eq_true_iff

theorem vlt_trans {a b c : Value} (ha : isStr a = true) (hb : isStr b = true)
    (hc : isStr c = true) (h1 : VLt a b) (h2 : VLt b c) : VLt a c := by
  cases a <;> simp [isStr] at ha
  cases b <;> simp [isStr] at hb
  cases c <;> simp [isStr] at hc
  exact vlt_str.mpr (lt_trans (vlt_str.mp h1) (vlt_str.mp h2))

theorem vlt_of_not_vlt {a b : Value} (ha : isStr a = true)
    (hb : isStr b = true) (hne : a ≠ b) (h : pyLt a b = false) : VLt b a := by
  cases a <;> simp [isStr] at ha
  cases b <;> simp [isStr] at hb
  rename_i sa sb
  have hlt : ¬ sa < sb := by
    intro hl
    rw [show pyLt (Value.str sa) (Value.str sb) = decide (sa < sb) from rfl] at h
    simp [hl] at h
  have hne' : sa ≠ sb := fun he => hne (by rw [he])
  exact vlt_str.mpr (lt_of_le_of_ne (not_lt.mp hlt) (Ne.symm hne'))

theorem pairwise_insertSorted {x : Value} {l : List Value}
    (hx : isStr x = true) (hl : ∀ y ∈ l, isStr y = true) (hnx : x ∉ l)
    (hp : l.Pairwise VLt) : (insertSorted x l).Pairwise VLt := by
  induction l with
  | nil => simp [insertSorted]
  | cons y ys ih =>
      obtain ⟨hpy, hpys⟩ := List.pairwise_cons.mp hp
      rw [insertSorted]
      by_cases h : pyLt x y = true
      · rw [if_pos h]
        refine List.pairwise_cons.mpr ⟨?_, hp⟩
        intro z hz
        rcases List.mem_cons.mp hz with hz | hz
        · subst hz; exact h
        · exact vlt_trans hx (hl y (List.mem_cons_self _ _))
            (hl z (List.mem_cons_of_mem _ hz)) h (hpy z hz)
      · rw [if_neg h]
        refine List.pairwise_cons.mpr ⟨?_, ?_⟩
        · intro z hz
          have hz' := (insertSorted_perm x ys).mem_iff.mp hz
          rcases List.mem_cons.mp hz' with hz' | hz'
          · subst hz'
            exact vlt_of_not_vlt hx (hl y (List.mem_cons_self _ _))
              (fun he => hnx (he ▸ List.mem_cons_self _ _)) (by simpa using h)
          · exact hpy z hz'
        · exact ih (fun z hz => hl z (List.mem_cons_of_mem _ hz))
            (fun hmem => hnx (List.mem_cons_of_mem _ hmem)) hpys

theorem pairwise_sortVals {l : List Value}
    (hl : ∀ y ∈ l, isStr y = true) (hnd : l.Nodup) :
    (sortVals l).Pairwise VLt := by
  induction l with
  | nil => simp [sortVals]
  | cons x xs ih =>
      obtain ⟨hnx, hnxs⟩ := List.nodup_cons.mp hnd
      rw [sortVals, List.foldr_cons]
      refine pairwise_insertSorted (hl x (List.mem_cons_self _ _)) ?_ ?_
        (ih (fun z hz => hl z (List.mem_cons_of_mem _ hz)) hnxs)
      · intro z hz
        exact hl z (List.mem_cons_of_mem _ ((sortVals_perm xs).mem_iff.mp hz))
      · intro hmem
        exact hnx ((sortVals_perm xs).mem_iff.mp hmem)

theorem strsOf_spec {l : List Value} (h : ∀ v ∈ l, isStr v = true) :
    l = (strsOf l).map Value.str := by
  induction l with
  | nil => rfl
  | cons x xs ih =>
      have hx := h x (List.mem_cons_self _ _)
      cases x <;> simp [isStr] at hx
      rw [strsOf, List.filterMap_cons]
      simp only []
      rw [List.map_cons]
      exact congrArg _ (ih (fun v hv => h v (List.mem_cons_of_mem _ hv)))

/-! ## Claim theorems -/

/-- C9: for every filter argument, including non-empty filters,
`count_documents` returns the total number of stored documents — the
number of documents `find` with no filter returns — ignoring the filter
entirely, so a filtered count equals the unfiltered count. -/
theorem count_documents_ignores_filter (data : Data) (f : Doc) :
    count_documents data f = (find data none).length ∧
    count_documents data f = count_documents data [] := by
  constructor
  · rw [count_documents, find, findAll, List.length_map]
  · rfl

/-- C8: for every exact-equality filter, `find_one` returns the first
document in insertion order whose attached form passes the
exact-equality test against the filter, and returns the none-sentinel
when no stored document matches. -/
theorem find_one_first_match_or_none (data : Data) (f : Doc) :
    find_one data f = (findAll data).find? (fun dwi => eqMatch dwi f) ∧
    ((∀ p ∈ data, eqMatch (withId p.1 p.2) f = false) →
      find_one data f = none) := by
  have hfind : find_one data f = (findAll data).find? (fun dwi => eqMatch dwi f) := by
    induction data with
    | nil => rfl
    | cons p rest ih =>
        obtain ⟨doc_id, doc⟩ := p
        rw [find_one, findAll, List.map_cons, List.find?_cons]
        by_cases hm : eqMatch (withId doc_id doc) f = true
        · simp [hm]
        · simp only [Bool.not_eq_true] at hm
          simp [hm, ih, findAll]
  refine ⟨hfind, fun h => ?_⟩
  rw [hfind]
  rw [List.find?_eq_none]
  intro dwi hmem
  obtain ⟨p, hp, rfl⟩ := List.mem_map.mp hmem
  simp [h p hp]

/-- C8 witness: a miss returns the none-sentinel on a concrete store. -/
theorem find_one_first_match_or_none_witness :
    find_one [(Value.str "a", [("x", Value.int 1)])] [("x", Value.int 2)] =
      none :=
  (find_one_first_match_or_none _ _).2 (by decide)

/-- C1 (amended): a filter whose value for a recognized operator key is a
mapping lacking the expected operator key is IGNORED by `find`: every
document satisfies the filter via that entry (the result is the full
collection, not the empty one), and no exception is raised. -/
theorem malformed_operator_entry_ignored (data : Data) (m1 m2 m3 : Doc)
    (h1 : dget m1 "$in" = none) (h2 : dget m2 "$gte" = none)
    (h3 : dget m3 "$lte" = none) :
    find data (some [("schedule_details.days", Value.obj m1)]) = findAll data ∧
    find data (some [("schedule_details.start_time", Value.obj m2)]) =
      findAll data ∧
    find data (some [("schedule_details.end_time", Value.obj m3)]) =
      findAll data := by
  refine ⟨?_, ?_, ?_⟩ <;>
    [skip; skip; skip] <;>
    · rw [find]
      apply findFiltered_all
      intro p hp
      simp [matchesFilter, matchEntry, h1, h2, h3]

/-- C1 witness: a concrete malformed mapping at each operator key leaves
the one-document collection fully visible. -/
theorem malformed_operator_entry_ignored_witness :
    find [(Value.str "a", [("x", Value.int 1)])]
        (some [("schedule_details.start_time", Value.obj [("$in", Value.int 3)])]) =
      findAll [(Value.str "a", [("x", Value.int 1)])] :=
  (malformed_operator_entry_ignored _ [] [("$in", Value.int 3)] [] rfl rfl rfl).2.1

/-- C1 counterexample: the claim says no document satisfies a filter via a
malformed operator entry; with one stored document and the days filter
value an empty mapping (no `$in` key), `find` returns that document. -/
theorem malformed_days_filter_counterexample :
    find [(Value.str "Chess", [("description", Value.str "x")])]
        (some [("schedule_details.days", Value.obj [])]) =
      [[("_id", Value.str "Chess"), ("description", Value.str "x")]] := by
  rfl

/-- C3 (amended): `aggregate` returns the empty sequence, raising no
error, for every pipeline the code does not recognize — fewer than two
stages, or no unwind key in the first stage, or no group key in the
second.  (The code does not check the unwind target or the group shape,
so some pipelines outside the spec's recognized shape do produce rows —
see the counterexample.) -/
theorem aggregate_unrecognized_empty (data : Data) (p : List Doc)
    (h : ¬ codeRecognizedPipeline p) : aggregate data p = [] := by
  match p with
  | [] => rfl
  | [s] => rfl
  | s0 :: s1 :: rest =>
      rw [aggregate]
      by_cases hg : ((dget s0 "$unwind").isSome && (dget s1 "$group").isSome) = true
      · exact absurd ⟨s0, s1, rest, rfl, by simpa using hg⟩ h
      · rw [if_neg hg]

/-- C3 witness: a one-stage pipeline yields the empty result. -/
theorem aggregate_unrecognized_empty_witness :
    aggregate [(Value.str "a", [("x", Value.int 1)])]
        [[("$match", Value.vnone)]] = [] :=
  aggregate_unrecognized_empty _ _
    (by rintro ⟨s0, s1, rest, heq, -, -⟩; simp at heq)

/-- C3 counterexample: a two-stage pipeline unwinding `$participants` —
not the recognized unwind on `schedule_details.days` — still yields the
distinct-days rows, not the empty sequence the claim requires. -/
theorem aggregate_shape_counterexample :
    aggregate
        [(Value.str "a",
          [("schedule_details", Value.obj [("days", Value.list [Value.str "Monday"])])])]
        [[("$unwind", Value.str "$participants")], [("$group", Value.vnone)]] =
      [[("_id", Value.str "Monday")]] := by
  rfl

theorem foldl_insert_ne_nil {α : Type} (g : Data → α → Data)
    (hg : ∀ d a, g d a ≠ []) :
    ∀ (l : List α) (d : Data), l ≠ [] → List.foldl g d l ≠ [] := by
  intro l
  induction l with
  | nil => intro d h; exact absurd rfl h
  | cons a as ih =>
      intro d _
      cases as with
      | nil => exact hg d a
      | cons b bs => exact ih (g d a) (by simp)

theorem seedActivities_ne_nil (d : Data) : seedActivities d ≠ [] := by
  apply foldl_insert_ne_nil
  · intro d' p
    rw [insert_one]
    exact dataSet_ne_nil _ _ _
  · simp [initial_activities]

theorem seedTeachers_ne_nil (hashPw : String → String) (d : Data) :
    seedTeachers hashPw d ≠ [] := by
  apply foldl_insert_ne_nil
  · intro d' p
    rw [insert_one]
    exact dataSet_ne_nil _ _ _
  · simp [initial_teachers]

theorem init_database_activities_ne_nil (hashPw : String → String)
    (t : DBState) : (init_database hashPw t).activities ≠ [] := by
  rw [init_database]
  simp only [count_documents]
  by_cases h : t.activities.length = 0
  · rw [if_pos h]; exact seedActivities_ne_nil _
  · rw [if_neg h]
    intro he
    exact h (by rw [he]; rfl)

theorem init_database_teachers_ne_nil (hashPw : String → String)
    (t : DBState) : (init_database hashPw t).teachers ≠ [] := by
  rw [init_database]
  simp only [count_documents]
  by_cases h : t.teachers.length = 0
  · rw [if_pos h]; exact seedTeachers_ne_nil _ _
  · rw [if_neg h]
    intro he
    exact h (by rw [he]; rfl)

/-- C6: `init_database` seeds a collection exactly when it is empty, and
running it twice leaves both collections identical to running it once:
a second run sees the non-empty seeded collections and changes nothing.
The last two conjuncts show the seeding direction: from the empty state
both collections really are populated. -/
theorem init_database_idempotent (hashPw : String → String) (s : DBState) :
    init_database hashPw (init_database hashPw s) = init_database hashPw s ∧
    (s.activities ≠ [] → (init_database hashPw s).activities = s.activities) ∧
    (s.teachers ≠ [] → (init_database hashPw s).teachers = s.teachers) ∧
    (init_database hashPw ⟨[], []⟩).activities ≠ [] ∧
    (init_database hashPw ⟨[], []⟩).teachers ≠ [] := by
  refine ⟨?_, ?_, ?_, init_database_activities_ne_nil _ _,
    init_database_teachers_ne_nil _ _⟩
  · have hA := init_database_activities_ne_nil hashPw s
    have hT := init_database_teachers_ne_nil hashPw s
    conv_lhs => rw [init_database]
    simp only [count_documents]
    rw [if_neg (fun h => hA (List.length_eq_zero.mp h)),
      if_neg (fun h => hT (List.length_eq_zero.mp h))]
  · intro h
    rw [init_database]
    simp only [count_documents]
    rw [if_neg (fun h0 => h (List.length_eq_zero.mp h0))]
  · intro h
    rw [init_database]
    simp only [count_documents]
    rw [if_neg (fun h0 => h (List.length_eq_zero.mp h0))]

/-- C6 witness: on a concrete non-empty state nothing is re-seeded. -/
theorem init_database_idempotent_witness :
    (init_database (fun p => p)
        ⟨[(Value.int 0, [])], [(Value.int 1, [])]⟩).activities =
      [(Value.int 0, [])] :=
  (init_database_idempotent (fun p => p) _).2.1 (by simp)

/-- C2 counterexample: the claim says the stored body never contains the
identifier field; inserting a document that carries `_id` stores the body
verbatim, `_id` included. -/
theorem insert_one_keeps_id_counterexample :
    (insert_one [] [("_id", Value.str "x"), ("a", Value.int 1)]).1 =
      [(Value.str "x", [("_id", Value.str "x"), ("a", Value.int 1)])] := by
  rfl

/-- C2 (amended): `insert_one` does not strip `_id` — it stores the
document body exactly as given, keyed by the identifier.  What does hold,
and is preserved by insertion: whenever a stored body carries an `_id`
binding its value equals the key it is stored under, and on every read
the attached document yields the key at `_id`. -/
theorem insert_one_stores_body_with_id (data : Data) (doc : Doc)
    (hnd : NodupKeys doc) (hwf : WF data) :
    dataGet (insert_one data doc).1 (insert_one data doc).2.inserted_id =
      some doc ∧
    WF (insert_one data doc).1 ∧
    ∀ p ∈ (insert_one data doc).1, dget (withId p.1 p.2) "_id" = some p.1 := by
  have hwf' : WF (insert_one data doc).1 := by
    intro p hp
    rw [insert_one] at hp
    rcases mem_dataSet hp with h | h
    · exact hwf p h
    · subst h
      refine ⟨hnd, fun w hw => ?_⟩
      rw [hw]
      rfl
  refine ⟨?_, hwf', fun p hp => ?_⟩
  · rw [insert_one, dataGet_dataSet_self]
  · obtain ⟨hn, hi⟩ := hwf' p hp
    exact dget_withId_id hn hi

/-- C2 witness: the amended facts at a concrete insertion. -/
theorem insert_one_stores_body_with_id_witness :
    dataGet (insert_one [] [("_id", Value.str "x"), ("a", Value.int 1)]).1
        (insert_one [] [("_id", Value.str "x"), ("a", Value.int 1)]).2.inserted_id =
      some [("_id", Value.str "x"), ("a", Value.int 1)] :=
  (insert_one_stores_body_with_id [] _ (by decide)
    (fun p hp => absurd hp (List.not_mem_nil p))).1

/-- C5: after `insert_one` of a document `d` whose `_id` is `id` into a
well-formed store, `find_one` by that identifier returns the attached
form of `d`, and that attached form agrees with `d` itself at every key
(it is `d` with `_id` re-attached — `d` already binds `_id` to `id`). -/
theorem insert_find_one_roundtrip (data : Data) (d : Doc) (id : Value)
    (hid : dget d "_id" = some id) (hnd : NodupKeys d) (hwf : WF data) :
    find_one (insert_one data d).1 [("_id", id)] = some (withId id d) ∧
    ∀ k, dget (withId id d) k = dget d k := by
  have hkey : (dget d "_id").getD (Value.int data.length) = id := by
    rw [hid]; rfl
  have hdid : dget (withId id d) "_id" = some id :=
    dget_withId_id hnd
      (fun w hw => by rw [hid] at hw; injection hw with h; exact h.symm)
  have hmatch : eqMatch (withId id d) [("_id", id)] = true := by
    simp [eqMatch, pyGet, hdid, Value.beq_refl]
  have hstep : ∀ data' : Data, WF data' →
      find_one (dataSet data' id d) [("_id", id)] = some (withId id d) := by
    intro data'
    induction data' with
    | nil =>
        intro _
        rw [dataSet, find_one, if_pos hmatch]
    | cons p rest ih =>
        intro hwf'
        obtain ⟨k, b⟩ := p
        by_cases hbeq : Value.beq k id = true
        · have hk : k = id := (Value.beq_iff _ _).mp hbeq
          subst hk
          rw [dataSet, if_pos (Value.beq_refl k), find_one, if_pos hmatch]
        · have hk : k ≠ id := fun he => hbeq (he ▸ Value.beq_refl k)
          obtain ⟨hnb, hib⟩ := hwf' (k, b) (List.mem_cons_self _ _)
          have hbid : dget (withId k b) "_id" = some k := dget_withId_id hnb hib
          have hnomatch : eqMatch (withId k b) [("_id", id)] = false := by
            simp [eqMatch, pyGet, hbid, Value.beq_eq_false hk]
          rw [dataSet, if_neg hbeq, find_one, hnomatch]
          simp only [Bool.false_eq_true, if_false]
          exact ih (fun q hq => hwf' q (List.mem_cons_of_mem _ hq))
  refine ⟨?_, fun k => ?_⟩
  · rw [insert_one]
    simp only [hkey]
    exact hstep data hwf
  · rw [dget_withId, lastLookup_eq_dget hnd]
    cases hdk : dget d k with
    | some w => rfl
    | none =>
        have hne : "_id" ≠ k := fun he => by
          rw [← he, hid] at hdk; cases hdk
        simp [hne]

/-- C5 witness: the roundtrip on a concrete document in the empty store. -/
theorem insert_find_one_roundtrip_witness :
    find_one (insert_one [] [("_id", Value.str "k"), ("v", Value.int 5)]).1
        [("_id", Value.str "k")] =
      some (withId (Value.str "k") [("_id", Value.str "k"), ("v", Value.int 5)]) :=
  (insert_find_one_roundtrip [] [("_id", Value.str "k"), ("v", Value.int 5)]
    (Value.str "k") rfl (by decide)
    (fun p hp => absurd hp (List.not_mem_nil p))).1

/-- C4: on the first document matched by the filter, a `$push` of `v` onto
an empty `participants` list followed by a `$pull` of `v` (the pull again
landing on that document, as the second hypothesis states) restores
`participants == []`; and a `$pull` of a value not present in the matched
document's list reports `modified_count` 1 while leaving the whole store
unchanged. -/
theorem update_push_pull (data : Data) (f : Doc) (v id : Value) (doc : Doc)
    (h1 : firstUpd data f = some (id, doc)) :
    (dget doc "participants" = some (Value.list []) →
      firstUpd (update_one data f (pushUpd v)).1 f =
        some (id, applyUpdate doc (pushUpd v)) →
      ((id, pullField (pushField doc "participants" v) "participants" v) ∈
          (update_one (update_one data f (pushUpd v)).1 f (pullUpd v)).1 ∧
        dget (pullField (pushField doc "participants" v) "participants" v)
            "participants" = some (Value.list []))) ∧
    (∀ vs : List Value, dget doc "participants" = some (Value.list vs) →
      vs.any (fun x => Value.beq x v) = false →
      (update_one data f (pullUpd v)).2.modified_count = 1 ∧
      (update_one data f (pullUpd v)).1 = data) := by
  constructor
  · intro hpart hsame
    have hpush : applyUpdate doc (pushUpd v) = pushField doc "participants" v :=
      rfl
    have hpl : applyUpdate (pushField doc "participants" v) (pullUpd v) =
        pullField (pushField doc "participants" v) "participants" v := rfl
    rw [hpush] at hsame
    obtain ⟨hcnt, pre, post, hdata1, hres⟩ := update_one_of_match
      (u := pullUpd v) hsame
    have hpf : pushField doc "participants" v =
        dset doc "participants" (Value.list [v]) := by
      simp [pushField, hpart]
    constructor
    · rw [hres, hpl]
      exact List.mem_append_right _ (List.mem_cons_self _ _)
    · rw [hpf, pullField, dget_dset, if_pos rfl]
      simp [dget_dset, Value.beq_refl]
  · intro vs hvs hnv
    have hfilter : vs.filter (fun x => !Value.beq x v) = vs := by
      apply List.filter_eq_self.mpr
      intro x hx
      have hx' : ¬ Value.beq x v = true := List.any_eq_false.mp hnv x hx
      simp [Bool.of_not_eq_true hx']
    have hpull : pullField doc "participants" v = doc := by
      rw [pullField, hvs]
      simp only []
      rw [hfilter, dset_self hvs]
    have happly : applyUpdate doc (pullUpd v) = doc := by
      show applyUpdate doc (pullUpd v) = doc
      rw [show applyUpdate doc (pullUpd v) =
        pullField doc "participants" v from rfl, hpull]
    obtain ⟨hcnt, pre, post, hdata, hres⟩ := update_one_of_match
      (u := pullUpd v) h1
    refine ⟨by rw [hcnt], ?_⟩
    rw [hres, happly, ← hdata]

/-- C4 witness: push then pull of "x" on a concrete one-document store
restores the empty list, and pulling an absent value reports 1 while
changing nothing. -/
theorem update_push_pull_witness :
    (Value.str "A",
        pullField (pushField [("participants", Value.list [])] "participants"
          (Value.str "x")) "participants" (Value.str "x")) ∈
      (update_one
        (update_one [(Value.str "A", [("participants", Value.list [])])] []
          (pushUpd (Value.str "x"))).1 [] (pullUpd (Value.str "x"))).1 ∧
    dget (pullField (pushField [("participants", Value.list [])] "participants"
        (Value.str "x")) "participants" (Value.str "x")) "participants" =
      some (Value.list []) ∧
    (update_one [(Value.str "A", [("participants", Value.list [])])] []
        (pullUpd (Value.str "x"))).2.modified_count = 1 ∧
    (update_one [(Value.str "A", [("participants", Value.list [])])] []
        (pullUpd (Value.str "x"))).1 =
      [(Value.str "A", [("participants", Value.list [])])] := by
  have h := update_push_pull [(Value.str "A", [("participants", Value.list [])])]
    [] (Value.str "x") (Value.str "A") [("participants", Value.list [])] rfl
  have p1 := h.1 rfl rfl
  have p2 := h.2 [] rfl rfl
  exact ⟨p1.1, p1.2, p2.1, p2.2⟩

theorem empty_lt_of_ne {b : String} (hb : b ≠ "") : "" < b := by
  rw [String.lt_iff_toList_lt, String.toList_empty,
    String.toList_nonempty hb]
  exact List.nil_lt_cons _ _

theorem not_lt_empty (b : String) : ¬ b < "" := by
  rw [String.lt_iff_toList_lt, String.toList_empty]
  intro h
  generalize b.toList = l at h
  cases h

/-- C10: a document on which the `start_time` lookup falls back to the
empty string (because `schedule_details` or the time field is absent)
never passes a `start_time` at-least filter with a non-empty bound, yet
always passes every `end_time` at-most filter, because the empty string
sorts lexicographically below every non-empty time string; shown both on
the per-document match and on `find` over a one-document store. -/
theorem missing_schedule_time_filters (id : Value) (doc : Doc) (b b' : String)
    (hs : getSched doc "start_time" (Value.str "") = Value.str "")
    (he : getSched doc "end_time" (Value.str "") = Value.str "")
    (hb : b ≠ "") :
    matchesFilter id doc
      [("schedule_details.start_time", Value.obj [("$gte", Value.str b)])] =
        false ∧
    matchesFilter id doc
      [("schedule_details.end_time", Value.obj [("$lte", Value.str b')])] =
        true ∧
    find [(id, doc)]
      (some [("schedule_details.start_time", Value.obj [("$gte", Value.str b)])]) =
        [] ∧
    find [(id, doc)]
      (some [("schedule_details.end_time", Value.obj [("$lte", Value.str b')])]) =
        [withId id doc] := by
  have hblt : [] < b.data := by
    have hl := empty_lt_of_ne hb
    rwa [String.lt_iff_toList_lt, String.toList_empty] at hl
  have h1 : matchesFilter id doc
      [("schedule_details.start_time", Value.obj [("$gte", Value.str b)])] =
        false := by
    simp [matchesFilter, matchEntry, dget, hs, pyLt, hblt]
  have h2 : matchesFilter id doc
      [("schedule_details.end_time", Value.obj [("$lte", Value.str b')])] =
        true := by
    simp [matchesFilter, matchEntry, dget, he, pyGt, not_lt_empty b']
  refine ⟨h1, h2, ?_, ?_⟩
  · rw [find, findFiltered, h1]
    simp [findFiltered]
  · rw [find, findFiltered, h2]
    simp [findFiltered]

/-- C10 witness: the filters on a concrete document without
`schedule_details`. -/
theorem missing_schedule_time_filters_witness :
    find [(Value.str "i", [("description", Value.str "d")])]
      (some [("schedule_details.start_time", Value.obj [("$gte", Value.str "08:00")])]) =
        [] ∧
    find [(Value.str "i", [("description", Value.str "d")])]
      (some [("schedule_details.end_time", Value.obj [("$lte", Value.str "17:00")])]) =
        [withId (Value.str "i") [("description", Value.str "d")]] := by
  have h := missing_schedule_time_filters (Value.str "i")
    [("description", Value.str "d")] "08:00" "17:00" rfl rfl (by decide)
  exact ⟨h.2.2.1, h.2.2.2⟩

/-- C7: for every two-stage pipeline of the recognized shape (an unwind
keyed on `schedule_details.days` in the first stage, a group key in the
second), `aggregate` returns exactly one row per distinct day occurring
in any document's days list (the set union over all documents, stated as
the membership equivalence), in strictly increasing — lexicographic —
order of day name.  The side condition says every collected day is a
string, as weekday names are. -/
theorem aggregate_distinct_days_sorted (data : Data) (s0 s1 : Doc) (g : Value)
    (h0 : dget s0 "$unwind" = some (Value.str "$schedule_details.days"))
    (h1 : dget s1 "$group" = some g)
    (hstr : (collectDays data).all isStr = true) :
    ∃ days : List String,
      aggregate data [s0, s1] =
        days.map (fun d => [("_id", Value.str d)]) ∧
      days.Pairwise (fun a b => a < b) ∧
      (∀ d : String, d ∈ days ↔ Value.str d ∈ collectDays data) := by
  have hguard : ((dget s0 "$unwind").isSome && (dget s1 "$group").isSome)
      = true := by
    rw [h0, h1]; rfl
  have hagg : aggregate data [s0, s1] =
      (sortVals (distinct (collectDays data))).map
        (fun day => [("_id", day)]) := by
    rw [aggregate, if_pos hguard]
  have hstr' : ∀ v ∈ collectDays data, isStr v = true :=
    List.all_eq_true.mp hstr
  have hLs : ∀ v ∈ distinct (collectDays data), isStr v = true :=
    fun v hv => hstr' v ((mem_distinct _ _).mp hv)
  have hLnd : (distinct (collectDays data)).Nodup := nodup_distinct _
  have hperm := sortVals_perm (distinct (collectDays data))
  have hSs : ∀ v ∈ sortVals (distinct (collectDays data)), isStr v = true :=
    fun v hv => hLs v (hperm.mem_iff.mp hv)
  have hpair : (sortVals (distinct (collectDays data))).Pairwise VLt :=
    pairwise_sortVals hLs hLnd
  have hmap : sortVals (distinct (collectDays data)) =
      (strsOf (sortVals (distinct (collectDays data)))).map Value.str :=
    strsOf_spec hSs
  refine ⟨strsOf (sortVals (distinct (collectDays data))), ?_, ?_, ?_⟩
  · rw [hagg]
    conv_lhs => rw [hmap]
    rw [List.map_map]
    rfl
  · rw [hmap] at hpair
    exact (List.pairwise_map.mp hpair).imp (fun h => vlt_str.mp h)
  · intro d
    constructor
    · intro hd
      have : Value.str d ∈ sortVals (distinct (collectDays data)) := by
        rw [hmap]
        exact List.mem_map_of_mem _ hd
      exact (mem_distinct _ _).mp (hperm.mem_iff.mp this)
    · intro hd
      have hmem : Value.str d ∈ sortVals (distinct (collectDays data)) :=
        hperm.mem_iff.mpr ((mem_distinct _ _).mpr hd)
      rw [hmap] at hmem
      obtain ⟨a, ha, hae⟩ := List.mem_map.mp hmem
      have : a = d := by injection hae
      exact this ▸ ha

/-- C7 witness: the three documents of the spec's own test produce the
rows Friday, Monday, Saturday in that order. -/
theorem aggregate_distinct_days_sorted_witness :
    ∃ days : List String,
      aggregate
        [(Value.str "a",
          [("schedule_details", Value.obj [("days", Value.list [Value.str "Monday"])])]),
         (Value.str "b",
          [("schedule_details",
            Value.obj [("days", Value.list [Value.str "Friday", Value.str "Monday"])])]),
         (Value.str "c",
          [("schedule_details", Value.obj [("days", Value.list [Value.str "Saturday"])])])]
        [[("$unwind", Value.str "$schedule_details.days")],
         [("$group", Value.obj [("_id", Value.str "$schedule_details.days")])]] =
        days.map (fun d => [("_id", Value.str d)]) ∧
      days.Pairwise (fun a b => a < b) ∧
      (∀ d : String, d ∈ days ↔ Value.str d ∈ collectDays
        [(Value.str "a",
          [("schedule_details", Value.obj [("days", Value.list [Value.str "Monday"])])]),
         (Value.str "b",
          [("schedule_details",
            Value.obj [("days", Value.list [Value.str "Friday", Value.str "Monday"])])]),
         (Value.str "c",
          [("schedule_details", Value.obj [("days", Value.list [Value.str "Saturday"])])])]) :=
  aggregate_distinct_days_sorted _ _ _
    (Value.obj [("_id", Value.str "$schedule_details.days")]) rfl rfl rfl

end MockDB
